import Mathlib

/-!
# resizeServices (alien4cloud-ui, `utils/services/resize_services.js`)

A shallow embedding of the `resizeServices` factory.

* JavaScript values that a pixel measurement or an offset can take are
  modelled by `JsVal`: an integer number, `NaN`, `undefined` or `null`.
  Fractional numbers are outside the model.
* The page measurements read by the code (`window.innerHeight`,
  `document.documentElement.clientHeight`, `document.body.clientHeight` and
  `$('.main-view').innerWidth()`) are the fields of `Host`.
* The mutable state is `Service`: the two closure variables `minWidth` and
  `minHeight`, the `window.onresize` slot, and the trace of callback
  invocations.  Callbacks are identified by a number; invoking one appends an
  entry to the trace and has no other effect on the service.
-/

namespace ResizeServices

/-- JavaScript values handled by the service. -/
inductive JsVal where
  | num (n : Int)
  | nan
  | undefined
  | null
  deriving DecidableEq, Repr

/-- ToNumber: `none` stands for `NaN`. -/
def toNumber : JsVal → Option Int
  | .num n => some n
  | .nan => none
  | .undefined => none
  | .null => some 0

/-- ToBoolean: `0`, `NaN`, `undefined` and `null` are falsy. -/
def truthy : JsVal → Bool
  | .num n => n != 0
  | .nan => false
  | .undefined => false
  | .null => false

/-- The operator `a || b`. -/
def jsOr (a b : JsVal) : JsVal :=
  if truthy a then a else b

/-- The operator `a < b` on numbers: false as soon as one side is `NaN`. -/
def jsLt (a b : JsVal) : Bool :=
  match toNumber a, toNumber b with
  | some x, some y => decide (x < y)
  | _, _ => false

/-- The operator `a - b`: `NaN` as soon as one side is `NaN`. -/
def jsSub (a b : JsVal) : JsVal :=
  match toNumber a, toNumber b with
  | some x, some y => .num (x - y)
  | _, _ => .nan

/-- Measurements supplied by the browser at a given moment. -/
structure Host where
  /-- Value of `window.innerHeight`. -/
  innerHeight : JsVal
  /-- Value of `document.documentElement.clientHeight`. -/
  documentElementClientHeight : JsVal
  /-- Value of `document.body.clientHeight`. -/
  bodyClientHeight : JsVal
  /-- Value of `$('.main-view').innerWidth()`. -/
  mainViewInnerWidth : JsVal
  deriving DecidableEq, Repr

/-- The function stored in `window.onresize` by `register`: a closure over
`callback`, `widthOffset` and `heightOffset`. -/
structure Handler where
  callback : Nat
  widthOffset : JsVal
  heightOffset : JsVal
  deriving DecidableEq, Repr

/-- One invocation `callback(width, height)`. -/
structure Call where
  callback : Nat
  width : JsVal
  height : JsVal
  deriving DecidableEq, Repr

/-- State of the service: closure variables, the resize hook and the trace of
callback invocations (oldest first). -/
structure Service where
  minWidth : JsVal
  minHeight : JsVal
  onresize : Option Handler
  calls : List Call
  deriving DecidableEq, Repr

/-- The factory body: `var minWidth = 640; var minHeight = 200;`, no handler
installed, no callback invoked yet. -/
def factory : Service :=
  { minWidth := .num 640, minHeight := .num 200, onresize := none, calls := [] }

/-- The expression
`window.innerHeight || document.documentElement.clientHeight || document.body.clientHeight`
(the operator associates to the left). -/
def rawHeight (host : Host) : JsVal :=
  jsOr (jsOr host.innerHeight host.documentElementClientHeight) host.bodyClientHeight

/-- The method `getHeight(offset)`: returns the value and the (untouched) service. -/
def getHeight (offset : JsVal) (host : Host) (s : Service) : JsVal × Service :=
  let height := rawHeight host
  let height := if jsLt height s.minHeight then s.minHeight else height
  let height := jsSub height offset
  (height, s)

/-- The method `getWidth(offset)`: returns the value and the (untouched) service. -/
def getWidth (offset : JsVal) (host : Host) (s : Service) : JsVal × Service :=
  let width := host.mainViewInnerWidth
  let width := if jsLt width s.minWidth then s.minWidth else width
  let width := jsSub width offset
  (width, s)

/-- The method `register(callback, widthOffset, heightOffset)`: assigns `window.onresize`. -/
def register (callback : Nat) (widthOffset heightOffset : JsVal) (s : Service) : Service :=
  { s with onresize := some ⟨callback, widthOffset, heightOffset⟩ }

/-- Body of the installed handler:
`callback(instance.getWidth(widthOffset), instance.getHeight(heightOffset))`,
the arguments being evaluated from left to right. -/
def runHandler (h : Handler) (host : Host) (s : Service) : Service :=
  let (width, s1) := getWidth h.widthOffset host s
  let (height, s2) := getHeight h.heightOffset host s1
  { s2 with calls := s2.calls ++ [⟨h.callback, width, height⟩] }

/-- The browser delivers one resize event while the measurements are `host`:
the function in `window.onresize`, if any, is called. -/
def resize (host : Host) (s : Service) : Service :=
  match s.onresize with
  | none => s
  | some h => runHandler h host s

/-- Delivery of a sequence of resize events, one per element of `hosts`. -/
def resizeAll : List Host → Service → Service
  | [], s => s
  | host :: rest, s => resizeAll rest (resize host s)

/-- What a client or the browser can do with the service. -/
inductive Action where
  | register (callback : Nat) (widthOffset heightOffset : JsVal)
  | getHeight (offset : JsVal)
  | getWidth (offset : JsVal)
  | resize
  deriving DecidableEq, Repr

/-- One action performed while the measurements are `host`; the value
returned by a getter is dropped. -/
def step (s : Service) : Host × Action → Service
  | (_, .register cb wo ho) => register cb wo ho s
  | (host, .getHeight o) => (getHeight o host s).2
  | (host, .getWidth o) => (getWidth o host s).2
  | (host, .resize) => resize host s

/-- A history of actions, each with the measurements current when it happens. -/
def run (s : Service) (acts : List (Host × Action)) : Service :=
  acts.foldl step s

/-- The service after an arbitrary history starting from the factory. -/
def after (acts : List (Host × Action)) : Service :=
  run factory acts

/-- Whether an action is a resize event. -/
def Action.isResize : Action → Bool
  | .resize => true
  | _ => false

/-- Whether an action is a call of one of the two getters. -/
def Action.isGetter : Action → Bool
  | .getHeight _ => true
  | .getWidth _ => true
  | _ => false

/-- Number of invocations of callback `cb` recorded in a trace. -/
def timesCalled (cb : Nat) (calls : List Call) : Nat :=
  (calls.filter (fun c => c.callback == cb)).length

/-- A sequence of `register` calls, one per element of `regs`, in order. -/
def registerAll (regs : List Handler) (s : Service) : Service :=
  regs.foldl (fun t r => register r.callback r.widthOffset r.heightOffset t) s

/-! ## Auxiliary lemmas -/

@[simp]
theorem jsLt_num (x y : Int) : jsLt (.num x) (.num y) = decide (x < y) := rfl

@[simp]
theorem jsSub_num (x y : Int) : jsSub (.num x) (.num y) = .num (x - y) := rfl

@[simp]
theorem getHeight_snd (o : JsVal) (host : Host) (s : Service) :
    (getHeight o host s).2 = s := rfl

@[simp]
theorem getWidth_snd (o : JsVal) (host : Host) (s : Service) :
    (getWidth o host s).2 = s := rfl

theorem resize_minWidth (host : Host) (s : Service) :
    (resize host s).minWidth = s.minWidth := by
  unfold resize
  cases s.onresize <;> rfl

theorem resize_minHeight (host : Host) (s : Service) :
    (resize host s).minHeight = s.minHeight := by
  unfold resize
  cases s.onresize <;> rfl

theorem resize_onresize (host : Host) (s : Service) :
    (resize host s).onresize = s.onresize := by
  unfold resize
  cases h : s.onresize <;> simp [runHandler, h]

theorem step_minWidth (s : Service) (a : Host × Action) :
    (step s a).minWidth = s.minWidth := by
  obtain ⟨host, act⟩ := a
  cases act <;> simp [step, register, resize_minWidth]

theorem step_minHeight (s : Service) (a : Host × Action) :
    (step s a).minHeight = s.minHeight := by
  obtain ⟨host, act⟩ := a
  cases act <;> simp [step, register, resize_minHeight]

theorem run_minWidth (acts : List (Host × Action)) (s : Service) :
    (run s acts).minWidth = s.minWidth := by
  induction acts generalizing s with
  | nil => rfl
  | cons a rest ih =>
    show (run (step s a) rest).minWidth = s.minWidth
    rw [ih, step_minWidth]

theorem run_minHeight (acts : List (Host × Action)) (s : Service) :
    (run s acts).minHeight = s.minHeight := by
  induction acts generalizing s with
  | nil => rfl
  | cons a rest ih =>
    show (run (step s a) rest).minHeight = s.minHeight
    rw [ih, step_minHeight]

theorem after_minWidth (acts : List (Host × Action)) :
    (after acts).minWidth = .num 640 :=
  run_minWidth acts factory

theorem after_minHeight (acts : List (Host × Action)) :
    (after acts).minHeight = .num 200 :=
  run_minHeight acts factory

/-- The getter `getHeight` on a numeric raw height, for floor 200. -/
theorem getHeight_of_num (s : Service) (host : Host) (h o : Int)
    (hmin : s.minHeight = .num 200) (hraw : rawHeight host = .num h) :
    (getHeight (.num o) host s).1 = .num (max h 200 - o) := by
  simp only [getHeight, hraw, hmin, jsLt_num]
  by_cases hlt : h < 200
  · simp [hlt, max_eq_right (le_of_lt hlt)]
  · simp [hlt, max_eq_left (not_lt.mp hlt)]

/-- The getter `getWidth` on a numeric measured width, for floor 640. -/
theorem getWidth_of_num (s : Service) (host : Host) (w o : Int)
    (hmin : s.minWidth = .num 640) (hw : host.mainViewInnerWidth = .num w) :
    (getWidth (.num o) host s).1 = .num (max w 640 - o) := by
  simp only [getWidth, hw, hmin, jsLt_num]
  by_cases hlt : w < 640
  · simp [hlt, max_eq_right (le_of_lt hlt)]
  · simp [hlt, max_eq_left (not_lt.mp hlt)]

/-- A resize event with a handler installed appends exactly one invocation. -/
theorem resize_calls_of_some (host : Host) (s : Service) (r : Handler)
    (hr : s.onresize = some r) :
    (resize host s).calls = s.calls ++
      [⟨r.callback, (getWidth r.widthOffset host s).1, (getHeight r.heightOffset host s).1⟩] := by
  simp [resize, hr, runHandler]

/-! ## Claims -/

/-- C1: for every service reachable from the factory, every integer raw
height `h` produced by the height source chain and every integer offset `o`,
`getHeight(o)` is `max(h, 200) - o`; it is `h - o` when `200 ≤ h` and
`200 - o` when `h < 200`. -/
theorem getHeight_clamps_then_subtracts (acts : List (Host × Action)) (host : Host)
    (h o : Int) (hraw : rawHeight host = .num h) :
    (getHeight (.num o) host (after acts)).1 = .num (max h 200 - o) ∧
    (200 ≤ h → (getHeight (.num o) host (after acts)).1 = .num (h - o)) ∧
    (h < 200 → (getHeight (.num o) host (after acts)).1 = .num (200 - o)) := by
  have key := getHeight_of_num (after acts) host h o (after_minHeight acts) hraw
  refine ⟨key, fun hge => ?_, fun hlt => ?_⟩
  · rw [key, max_eq_left hge]
  · rw [key, max_eq_right (le_of_lt hlt)]

/-- Witness for C1: raw height 150 with offset 10 gives 190, raw height 800
with offset 50 gives 750, and raw height exactly 200 is kept. -/
theorem getHeight_clamps_then_subtracts_witness :
    (rawHeight ⟨.num 150, .undefined, .undefined, .undefined⟩ = .num 150 ∧
      (getHeight (.num 10) ⟨.num 150, .undefined, .undefined, .undefined⟩ (after [])).1
        = .num 190) ∧
    (rawHeight ⟨.num 800, .num 790, .num 3000, .num 1200⟩ = .num 800 ∧
      (getHeight (.num 50) ⟨.num 800, .num 790, .num 3000, .num 1200⟩
        (after [(⟨.num 700, .num 0, .num 0, .num 900⟩, .register 4 (.num 1) (.num 2))])).1
        = .num 750) ∧
    (rawHeight ⟨.num 200, .null, .null, .null⟩ = .num 200 ∧
      (getHeight (.num 0) ⟨.num 200, .null, .null, .null⟩ (after [])).1 = .num 200) :=
  ⟨⟨by decide,
      (getHeight_clamps_then_subtracts [] ⟨.num 150, .undefined, .undefined, .undefined⟩
        150 10 (by decide)).2.2 (by decide)⟩,
    ⟨by decide,
      (getHeight_clamps_then_subtracts
        [(⟨.num 700, .num 0, .num 0, .num 900⟩, .register 4 (.num 1) (.num 2))]
        ⟨.num 800, .num 790, .num 3000, .num 1200⟩ 800 50 (by decide)).2.1 (by decide)⟩,
    ⟨by decide,
      (getHeight_clamps_then_subtracts [] ⟨.num 200, .null, .null, .null⟩
        200 0 (by decide)).2.1 (by decide)⟩⟩

/-- C2: for every service reachable from the factory, every integer measured
inner width `w` of the main view and every integer offset `o`, `getWidth(o)`
is `max(w, 640) - o`; it is `w - o` when `640 ≤ w` and `640 - o` when
`w < 640`. -/
theorem getWidth_clamps_then_subtracts (acts : List (Host × Action)) (host : Host)
    (w o : Int) (hw : host.mainViewInnerWidth = .num w) :
    (getWidth (.num o) host (after acts)).1 = .num (max w 640 - o) ∧
    (640 ≤ w → (getWidth (.num o) host (after acts)).1 = .num (w - o)) ∧
    (w < 640 → (getWidth (.num o) host (after acts)).1 = .num (640 - o)) := by
  have key := getWidth_of_num (after acts) host w o (after_minWidth acts) hw
  refine ⟨key, fun hge => ?_, fun hlt => ?_⟩
  · rw [key, max_eq_left hge]
  · rw [key, max_eq_right (le_of_lt hlt)]

/-- Witness for C2: main-view width 500 with offset 0 gives 640, and width
exactly 640 is kept. -/
theorem getWidth_clamps_then_subtracts_witness :
    ((⟨.num 900, .num 900, .num 900, .num 500⟩ : Host).mainViewInnerWidth = .num 500 ∧
      (getWidth (.num 0) ⟨.num 900, .num 900, .num 900, .num 500⟩ (after [])).1
        = .num 640) ∧
    ((⟨.num 900, .num 900, .num 900, .num 640⟩ : Host).mainViewInnerWidth = .num 640 ∧
      (getWidth (.num 15) ⟨.num 900, .num 900, .num 900, .num 640⟩ (after [])).1
        = .num 625) :=
  ⟨⟨rfl,
      (getWidth_clamps_then_subtracts [] ⟨.num 900, .num 900, .num 900, .num 500⟩
        500 0 rfl).2.2 (by decide)⟩,
    ⟨rfl,
      (getWidth_clamps_then_subtracts [] ⟨.num 900, .num 900, .num 900, .num 640⟩
        640 15 rfl).2.1 (by decide)⟩⟩

/-- C3: after `register(cb, wo, ho)` on any reachable service, one resize
event occurring while the main-view width is `w` and the raw height is `h`
appends exactly one invocation to the trace, that of `cb` with
`(max(w, 640) - wo, max(h, 200) - ho)`, width first; `cb` has been invoked
exactly once more than before. -/
theorem register_then_resize_calls_once (acts : List (Host × Action)) (cb : Nat)
    (wo ho w h : Int) (host : Host)
    (hw : host.mainViewInnerWidth = .num w) (hraw : rawHeight host = .num h) :
    (resize host (register cb (.num wo) (.num ho) (after acts))).calls =
      (after acts).calls ++ [⟨cb, .num (max w 640 - wo), .num (max h 200 - ho)⟩] ∧
    timesCalled cb (resize host (register cb (.num wo) (.num ho) (after acts))).calls =
      timesCalled cb (after acts).calls + 1 := by
  have hcalls : (resize host (register cb (.num wo) (.num ho) (after acts))).calls =
      (after acts).calls ++ [⟨cb, .num (max w 640 - wo), .num (max h 200 - ho)⟩] := by
    rw [resize_calls_of_some host _ ⟨cb, .num wo, .num ho⟩ rfl]
    have e1 := getWidth_of_num (register cb (.num wo) (.num ho) (after acts)) host w wo
      (after_minWidth acts) hw
    have e2 := getHeight_of_num (register cb (.num wo) (.num ho) (after acts)) host h ho
      (after_minHeight acts) hraw
    simp only [e1, e2]
    rfl
  refine ⟨hcalls, ?_⟩
  rw [hcalls]
  simp [timesCalled, List.filter_append]

/-- Witness for C3: `register(cb, 20, 30)` then one resize with width 1000
and height 900 calls `cb` once with `(980, 870)`. -/
theorem register_then_resize_calls_once_witness :
    (⟨.num 900, .num 880, .num 2000, .num 1000⟩ : Host).mainViewInnerWidth = .num 1000 ∧
    rawHeight ⟨.num 900, .num 880, .num 2000, .num 1000⟩ = .num 900 ∧
    (resize ⟨.num 900, .num 880, .num 2000, .num 1000⟩
        (register 7 (.num 20) (.num 30) (after []))).calls
      = [⟨7, .num 980, .num 870⟩] ∧
    timesCalled 7 (resize ⟨.num 900, .num 880, .num 2000, .num 1000⟩
        (register 7 (.num 20) (.num 30) (after []))).calls = 1 :=
  ⟨rfl, by decide,
    (register_then_resize_calls_once [] 7 20 30 1000 900
      ⟨.num 900, .num 880, .num 2000, .num 1000⟩ rfl (by decide)).1,
    (register_then_resize_calls_once [] 7 20 30 1000 900
      ⟨.num 900, .num 880, .num 2000, .num 1000⟩ rfl (by decide)).2⟩

theorem registerAll_append_singleton (regs : List Handler) (r : Handler) (s : Service) :
    registerAll (regs ++ [r]) s =
      register r.callback r.widthOffset r.heightOffset (registerAll regs s) := by
  simp [registerAll, List.foldl_append]

theorem registerAll_calls (regs : List Handler) (s : Service) :
    (registerAll regs s).calls = s.calls := by
  induction regs generalizing s with
  | nil => rfl
  | cons r rest ih =>
    show (registerAll rest (register r.callback r.widthOffset r.heightOffset s)).calls = s.calls
    rw [ih]
    rfl

theorem registerAll_minWidth (regs : List Handler) (s : Service) :
    (registerAll regs s).minWidth = s.minWidth := by
  induction regs generalizing s with
  | nil => rfl
  | cons r rest ih =>
    show (registerAll rest (register r.callback r.widthOffset r.heightOffset s)).minWidth = _
    rw [ih]
    rfl

theorem registerAll_minHeight (regs : List Handler) (s : Service) :
    (registerAll regs s).minHeight = s.minHeight := by
  induction regs generalizing s with
  | nil => rfl
  | cons r rest ih =>
    show (registerAll rest (register r.callback r.widthOffset r.heightOffset s)).minHeight = _
    rw [ih]
    rfl

theorem getWidth_fst_congr (o : JsVal) (host : Host) (s t : Service)
    (hst : s.minWidth = t.minWidth) : (getWidth o host s).1 = (getWidth o host t).1 := by
  simp only [getWidth, hst]

theorem getHeight_fst_congr (o : JsVal) (host : Host) (s t : Service)
    (hst : s.minHeight = t.minHeight) : (getHeight o host s).1 = (getHeight o host t).1 := by
  simp only [getHeight, hst]

theorem registerAll_onresize (regs : List Handler) (hne : regs ≠ []) (s : Service) :
    (registerAll regs s).onresize = some (regs.getLast hne) := by
  induction regs using List.reverseRecOn with
  | nil => exact absurd rfl hne
  | append_singleton rest r _ =>
    rw [registerAll_append_singleton, List.getLast_append_singleton]
    rfl

/-- C4: after any non-empty sequence of `register` calls on a reachable
service, the resize hook holds exactly the tuple of the last call; the next
resize event appends one invocation only, that of the last registered
callback with the last call's offsets, and the number of invocations of every
other callback is unchanged. -/
theorem last_registration_wins (acts : List (Host × Action)) (regs : List Handler)
    (hne : regs ≠ []) (host : Host) :
    (registerAll regs (after acts)).onresize = some (regs.getLast hne) ∧
    (resize host (registerAll regs (after acts))).calls =
      (after acts).calls ++
        [⟨(regs.getLast hne).callback,
          (getWidth (regs.getLast hne).widthOffset host (after acts)).1,
          (getHeight (regs.getLast hne).heightOffset host (after acts)).1⟩] ∧
    timesCalled (regs.getLast hne).callback (resize host (registerAll regs (after acts))).calls =
      timesCalled (regs.getLast hne).callback (after acts).calls + 1 ∧
    ∀ cb, cb ≠ (regs.getLast hne).callback →
      timesCalled cb (resize host (registerAll regs (after acts))).calls =
        timesCalled cb (after acts).calls := by
  have hslot := registerAll_onresize regs hne (after acts)
  have hcalls : (resize host (registerAll regs (after acts))).calls =
      (after acts).calls ++
        [⟨(regs.getLast hne).callback,
          (getWidth (regs.getLast hne).widthOffset host (after acts)).1,
          (getHeight (regs.getLast hne).heightOffset host (after acts)).1⟩] := by
    rw [resize_calls_of_some host _ _ hslot, registerAll_calls,
      getWidth_fst_congr _ host _ (after acts) (registerAll_minWidth regs _),
      getHeight_fst_congr _ host _ (after acts) (registerAll_minHeight regs _)]
  refine ⟨hslot, hcalls, ?_, ?_⟩
  · rw [hcalls]
    simp [timesCalled, List.filter_append]
  · intro cb hcb
    rw [hcalls]
    have : ((regs.getLast hne).callback == cb) = false := by
      simpa using fun h => hcb h.symm
    simp [timesCalled, List.filter_append, List.filter_cons, this]

/-- Witness for C4: `register(cb1, ..)` then `register(cb2, ..)` then one
resize event invokes `cb2` once and `cb1` zero times. -/
theorem last_registration_wins_witness :
    ([⟨1, .num 0, .num 0⟩, ⟨2, .num 5, .num 6⟩] : List Handler) ≠ [] ∧
    (registerAll [⟨1, .num 0, .num 0⟩, ⟨2, .num 5, .num 6⟩] (after [])).onresize =
      some ⟨2, .num 5, .num 6⟩ ∧
    (resize ⟨.num 900, .num 880, .num 2000, .num 1000⟩
        (registerAll [⟨1, .num 0, .num 0⟩, ⟨2, .num 5, .num 6⟩] (after []))).calls =
      [⟨2, .num 995, .num 894⟩] ∧
    timesCalled 2 (resize ⟨.num 900, .num 880, .num 2000, .num 1000⟩
        (registerAll [⟨1, .num 0, .num 0⟩, ⟨2, .num 5, .num 6⟩] (after []))).calls = 1 ∧
    timesCalled 1 (resize ⟨.num 900, .num 880, .num 2000, .num 1000⟩
        (registerAll [⟨1, .num 0, .num 0⟩, ⟨2, .num 5, .num 6⟩] (after []))).calls = 0 :=
  ⟨by decide,
    (last_registration_wins [] [⟨1, .num 0, .num 0⟩, ⟨2, .num 5, .num 6⟩] (by decide)
      ⟨.num 900, .num 880, .num 2000, .num 1000⟩).1,
    (last_registration_wins [] [⟨1, .num 0, .num 0⟩, ⟨2, .num 5, .num 6⟩] (by decide)
      ⟨.num 900, .num 880, .num 2000, .num 1000⟩).2.1,
    (last_registration_wins [] [⟨1, .num 0, .num 0⟩, ⟨2, .num 5, .num 6⟩] (by decide)
      ⟨.num 900, .num 880, .num 2000, .num 1000⟩).2.2.1,
    (last_registration_wins [] [⟨1, .num 0, .num 0⟩, ⟨2, .num 5, .num 6⟩] (by decide)
      ⟨.num 900, .num 880, .num 2000, .num 1000⟩).2.2.2 1 (by decide)⟩

/-- C5: the raw height is the window inner height when that is non-falsy,
otherwise the document element's client height when that is non-falsy,
otherwise the body's client height as it is; a non-falsy earlier source makes
the result independent of the later ones; an inner height of 0 counts as
unavailable, so with inner height 0 and document-element client height
`c > 0` the value of `getHeight(o)` is `max(c, 200) - o`. -/
theorem rawHeight_source_preference (acts : List (Host × Action))
    (ih d b w : JsVal) (c o : Int) :
    rawHeight ⟨ih, d, b, w⟩ =
      (if truthy ih then ih else if truthy d then d else b) ∧
    (truthy ih = true → ∀ d1 b1 : JsVal, rawHeight ⟨ih, d1, b1, w⟩ = ih) ∧
    (truthy ih = false → truthy d = true → ∀ b1 : JsVal, rawHeight ⟨ih, d, b1, w⟩ = d) ∧
    (truthy ih = false → truthy d = false → rawHeight ⟨ih, d, b, w⟩ = b) ∧
    (0 < c → rawHeight ⟨.num 0, .num c, b, w⟩ = .num c ∧
      (getHeight (.num o) ⟨.num 0, .num c, b, w⟩ (after acts)).1 = .num (max c 200 - o)) := by
  refine ⟨?_, ?_, ?_, ?_, ?_⟩
  · cases hi : truthy ih <;> cases hd : truthy d <;> simp [rawHeight, jsOr, hi, hd]
  · intro hi d1 b1
    simp [rawHeight, jsOr, hi]
  · intro hi hd b1
    simp [rawHeight, jsOr, hi, hd]
  · intro hi hd
    simp [rawHeight, jsOr, hi, hd]
  · intro hc
    have hne : c ≠ 0 := ne_of_gt hc
    have hraw : rawHeight ⟨.num 0, .num c, b, w⟩ = .num c := by
      simp [rawHeight, jsOr, truthy, hne]
    exact ⟨hraw, getHeight_of_num (after acts) _ c o (after_minHeight acts) hraw⟩

/-- Witness for C5: inner height 0, document-element client height 768 and
offset 68 give 700 whatever the body's client height; with all three sources
falsy the body's value, here 0, is used and clamped. -/
theorem rawHeight_source_preference_witness :
    (rawHeight ⟨.num 0, .num 768, .num 5000, .num 1000⟩ = .num 768 ∧
      (getHeight (.num 68) ⟨.num 0, .num 768, .num 5000, .num 1000⟩ (after [])).1
        = .num 700) ∧
    (∀ d1 b1 : JsVal, rawHeight ⟨.num 600, d1, b1, .num 1000⟩ = .num 600) ∧
    rawHeight ⟨.undefined, .num 0, .num 0, .num 1000⟩ = .num 0 :=
  ⟨(rawHeight_source_preference [] (.num 0) (.num 768) (.num 5000) (.num 1000) 768 68).2.2.2.2
      (by decide),
    (rawHeight_source_preference [] (.num 600) .nan .nan (.num 1000) 0 0).2.1 (by decide),
    (rawHeight_source_preference [] .undefined (.num 0) (.num 0) (.num 1000) 0 0).2.2.2.1
      (by decide) (by decide)⟩

theorem resizeAll_calls_of_some (hosts : List Host) (s : Service) (r : Handler)
    (hr : s.onresize = some r) :
    (resizeAll hosts s).calls = s.calls ++ hosts.map (fun host =>
      ⟨r.callback, (getWidth r.widthOffset host s).1, (getHeight r.heightOffset host s).1⟩) := by
  induction hosts generalizing s with
  | nil => simp [resizeAll]
  | cons host rest ih =>
    have hr1 : (resize host s).onresize = some r := by rw [resize_onresize, hr]
    show (resizeAll rest (resize host s)).calls = _
    rw [ih (resize host s) hr1, resize_calls_of_some host s r hr]
    simp only [List.map_cons, List.append_assoc, List.singleton_append]
    congr 2
    apply List.map_congr_left
    intro host1 _
    rw [getWidth_fst_congr _ host1 _ s (resize_minWidth host s),
      getHeight_fst_congr _ host1 _ s (resize_minHeight host s)]

/-- C6: after `register(cb, wo, ho)` on a reachable service, a sequence of
`n` resize events whose measurements are `(w_i, h_i)` appends exactly `n`
invocations of `cb`, in the order of the events, the `i`-th one with
`(max(w_i, 640) - wo, max(h_i, 200) - ho)`. -/
theorem one_invocation_per_resize_event (acts : List (Host × Action)) (cb : Nat)
    (wo ho : Int) (hosts : List Host) (meas : List (Int × Int))
    (hmeas : List.Forall₂
      (fun host m => host.mainViewInnerWidth = .num m.1 ∧ rawHeight host = .num m.2)
      hosts meas) :
    (resizeAll hosts (register cb (.num wo) (.num ho) (after acts))).calls =
      (after acts).calls ++ meas.map (fun m =>
        (⟨cb, .num (max m.1 640 - wo), .num (max m.2 200 - ho)⟩ : Call)) ∧
    timesCalled cb (resizeAll hosts (register cb (.num wo) (.num ho) (after acts))).calls =
      timesCalled cb (after acts).calls + hosts.length := by
  have hcalls : (resizeAll hosts (register cb (.num wo) (.num ho) (after acts))).calls =
      (after acts).calls ++ meas.map (fun m =>
        (⟨cb, .num (max m.1 640 - wo), .num (max m.2 200 - ho)⟩ : Call)) := by
    rw [resizeAll_calls_of_some hosts _ ⟨cb, .num wo, .num ho⟩ rfl]
    show (after acts).calls ++ _ = _
    congr 1
    induction hmeas with
    | nil => rfl
    | cons hd _ ih =>
      simp only [List.map_cons]
      rw [ih, getWidth_of_num (register cb (.num wo) (.num ho) (after acts)) _ _ wo
          (after_minWidth acts) hd.1,
        getHeight_of_num (register cb (.num wo) (.num ho) (after acts)) _ _ ho
          (after_minHeight acts) hd.2]
  refine ⟨hcalls, ?_⟩
  rw [hcalls, hmeas.length_eq]
  simp [timesCalled, List.filter_append, List.filter_map, Function.comp_def]

/-- Witness for C6: two resize events, the second below both floors, give
two invocations in order; no event gives no invocation. -/
theorem one_invocation_per_resize_event_witness :
    List.Forall₂
      (fun (host : Host) (m : Int × Int) =>
        host.mainViewInnerWidth = .num m.1 ∧ rawHeight host = .num m.2)
      [⟨.num 900, .num 880, .num 2000, .num 1000⟩, ⟨.num 0, .num 100, .num 50, .num 300⟩]
      [(1000, 900), (300, 100)] ∧
    (resizeAll [⟨.num 900, .num 880, .num 2000, .num 1000⟩, ⟨.num 0, .num 100, .num 50, .num 300⟩]
        (register 7 (.num 20) (.num 30) (after []))).calls =
      [⟨7, .num 980, .num 870⟩, ⟨7, .num 620, .num 170⟩] ∧
    (resizeAll [] (register 7 (.num 20) (.num 30) (after []))).calls = [] :=
  ⟨List.Forall₂.cons ⟨rfl, by decide⟩ (List.Forall₂.cons ⟨rfl, by decide⟩ List.Forall₂.nil),
    (one_invocation_per_resize_event [] 7 20 30
      [⟨.num 900, .num 880, .num 2000, .num 1000⟩, ⟨.num 0, .num 100, .num 50, .num 300⟩]
      [(1000, 900), (300, 100)]
      (List.Forall₂.cons ⟨rfl, by decide⟩
        (List.Forall₂.cons ⟨rfl, by decide⟩ List.Forall₂.nil))).1,
    (one_invocation_per_resize_event [] 7 20 30 [] [] List.Forall₂.nil).1⟩

/-- C7: the floor is applied before the subtraction and not after it: on a
reachable service, for raw height `h`, an offset above `max(h, 200)` makes
`getHeight` negative, and for measured width `w` an offset above
`max(w, 640)` makes `getWidth` negative; the results are bounded below by
`200 - o` and `640 - o`, and these bounds are reached whenever the
measurement does not exceed the floor. -/
theorem offset_subtracted_after_clamp (acts : List (Host × Action)) (host : Host)
    (h w oh ow : Int)
    (hraw : rawHeight host = .num h) (hw : host.mainViewInnerWidth = .num w) :
    (max h 200 < oh →
      ∃ r : Int, (getHeight (.num oh) host (after acts)).1 = .num r ∧ r < 0) ∧
    (max w 640 < ow →
      ∃ r : Int, (getWidth (.num ow) host (after acts)).1 = .num r ∧ r < 0) ∧
    (∃ r : Int, (getHeight (.num oh) host (after acts)).1 = .num r ∧ 200 - oh ≤ r ∧
      (h ≤ 200 → r = 200 - oh)) ∧
    (∃ r : Int, (getWidth (.num ow) host (after acts)).1 = .num r ∧ 640 - ow ≤ r ∧
      (w ≤ 640 → r = 640 - ow)) := by
  have eh := getHeight_of_num (after acts) host h oh (after_minHeight acts) hraw
  have ew := getWidth_of_num (after acts) host w ow (after_minWidth acts) hw
  refine ⟨fun hlt => ⟨_, eh, by omega⟩, fun hlt => ⟨_, ew, by omega⟩,
    ⟨_, eh, ?_, fun hle => ?_⟩, ⟨_, ew, ?_, fun hle => ?_⟩⟩
  · have := le_max_right h 200
    omega
  · rw [max_eq_right hle]
  · have := le_max_right w 640
    omega
  · rw [max_eq_right hle]

/-- Witness for C7: raw height 150 with offset 250 gives -50, and width 500
with offset 700 gives -60. -/
theorem offset_subtracted_after_clamp_witness :
    rawHeight ⟨.num 150, .num 0, .num 0, .num 500⟩ = .num 150 ∧
    (⟨.num 150, .num 0, .num 0, .num 500⟩ : Host).mainViewInnerWidth = .num 500 ∧
    (∃ r : Int, (getHeight (.num 250) ⟨.num 150, .num 0, .num 0, .num 500⟩ (after [])).1
      = .num r ∧ r < 0) ∧
    (∃ r : Int, (getWidth (.num 700) ⟨.num 150, .num 0, .num 0, .num 500⟩ (after [])).1
      = .num r ∧ r < 0) :=
  ⟨by decide, rfl,
    (offset_subtracted_after_clamp [] ⟨.num 150, .num 0, .num 0, .num 500⟩ 150 500 250 700
      (by decide) rfl).1 (by decide),
    (offset_subtracted_after_clamp [] ⟨.num 150, .num 0, .num 0, .num 500⟩ 150 500 250 700
      (by decide) rfl).2.1 (by decide)⟩

/-- C8: on a reachable service, a raw height that is `NaN` or `undefined` is
not replaced by the floor: `getHeight(o)` returns `NaN`, not `200 - o`; a
main-view width that is `NaN` or `undefined` makes `getWidth(o)` return
`NaN`, not `640 - o`.  Both getters are total functions returning a value:
no fault is raised. -/
theorem missing_measurement_not_clamped (acts : List (Host × Action)) (host : Host)
    (o : Int) :
    (rawHeight host = .nan ∨ rawHeight host = .undefined →
      (getHeight (.num o) host (after acts)).1 = .nan ∧
      (getHeight (.num o) host (after acts)).1 ≠ .num (200 - o)) ∧
    (host.mainViewInnerWidth = .nan ∨ host.mainViewInnerWidth = .undefined →
      (getWidth (.num o) host (after acts)).1 = .nan ∧
      (getWidth (.num o) host (after acts)).1 ≠ .num (640 - o)) := by
  constructor
  · intro hraw
    have e : (getHeight (.num o) host (after acts)).1 = .nan := by
      rcases hraw with hraw | hraw <;>
        simp [getHeight, hraw, after_minHeight acts, jsLt, jsSub, toNumber]
    exact ⟨e, by rw [e]; exact fun hc => JsVal.noConfusion hc⟩
  · intro hw
    have e : (getWidth (.num o) host (after acts)).1 = .nan := by
      rcases hw with hw | hw <;>
        simp [getWidth, hw, after_minWidth acts, jsLt, jsSub, toNumber]
    exact ⟨e, by rw [e]; exact fun hc => JsVal.noConfusion hc⟩

/-- Witness for C8: all sources `undefined` give `NaN` for both getters, and
a body client height of `NaN` behind two falsy sources gives `NaN`. -/
theorem missing_measurement_not_clamped_witness :
    (getHeight (.num 10) ⟨.undefined, .undefined, .undefined, .undefined⟩ (after [])).1 = .nan ∧
    (getWidth (.num 10) ⟨.undefined, .undefined, .undefined, .undefined⟩ (after [])).1 = .nan ∧
    (getHeight (.num 10) ⟨.num 0, .null, .nan, .nan⟩ (after [])).1 ≠ .num 190 ∧
    (getWidth (.num 10) ⟨.num 0, .null, .nan, .nan⟩ (after [])).1 ≠ .num 630 :=
  ⟨((missing_measurement_not_clamped [] ⟨.undefined, .undefined, .undefined, .undefined⟩ 10).1
      (Or.inr (by decide))).1,
    ((missing_measurement_not_clamped [] ⟨.undefined, .undefined, .undefined, .undefined⟩ 10).2
      (Or.inr rfl)).1,
    ((missing_measurement_not_clamped [] ⟨.num 0, .null, .nan, .nan⟩ 10).1
      (Or.inl (by decide))).2,
    ((missing_measurement_not_clamped [] ⟨.num 0, .null, .nan, .nan⟩ 10).2
      (Or.inl rfl)).2⟩

theorem run_cons (s : Service) (a : Host × Action) (rest : List (Host × Action)) :
    run s (a :: rest) = run (step s a) rest := rfl

theorem run_append (s : Service) (xs ys : List (Host × Action)) :
    run s (xs ++ ys) = run (run s xs) ys := by
  simp [run, List.foldl_append]

theorem step_calls_of_not_resize (s : Service) (a : Host × Action)
    (ha : a.2.isResize = false) : (step s a).calls = s.calls := by
  obtain ⟨host, act⟩ := a
  cases act <;> simp_all [step, register, Action.isResize]

theorem run_calls_of_no_resize (later : List (Host × Action)) (s : Service)
    (hno : ∀ a ∈ later, a.2.isResize = false) : (run s later).calls = s.calls := by
  induction later generalizing s with
  | nil => rfl
  | cons a rest ih =>
    rw [run_cons, ih (step s a) (fun b hb => hno b (List.mem_cons_of_mem a hb)),
      step_calls_of_not_resize s a (hno a (List.mem_cons_self a rest))]

theorem step_of_getter (s : Service) (a : Host × Action)
    (ha : a.2.isGetter = true) : step s a = s := by
  obtain ⟨host, act⟩ := a
  cases act <;> simp_all [step, Action.isGetter]

theorem run_of_getters (gets : List (Host × Action)) (s : Service)
    (hget : ∀ a ∈ gets, a.2.isGetter = true) : run s gets = s := by
  induction gets generalizing s with
  | nil => rfl
  | cons a rest ih =>
    rw [run_cons, step_of_getter s a (hget a (List.mem_cons_self a rest))]
    exact ih s (fun b hb => hget b (List.mem_cons_of_mem a hb))

/-- C9: on a reachable service, `register(cb, wo, ho)` only installs the
handler: the trace of invocations is the one before the call, the resulting
service does not depend on the measurements current at the call, and after
any later history without a resize event the trace is still the one before
the call, so `cb` has not been invoked by the registration. -/
theorem register_invokes_no_callback (acts : List (Host × Action)) (cb : Nat)
    (wo ho : JsVal) (later : List (Host × Action))
    (hno : ∀ a ∈ later, a.2.isResize = false) :
    (register cb wo ho (after acts)).calls = (after acts).calls ∧
    (register cb wo ho (after acts)).onresize = some ⟨cb, wo, ho⟩ ∧
    (∀ host1 host2 : Host,
      step (after acts) (host1, .register cb wo ho) =
        step (after acts) (host2, .register cb wo ho)) ∧
    (run (register cb wo ho (after acts)) later).calls = (after acts).calls ∧
    timesCalled cb (run (register cb wo ho (after acts)) later).calls =
      timesCalled cb (after acts).calls := by
  have hrun : (run (register cb wo ho (after acts)) later).calls = (after acts).calls := by
    rw [run_calls_of_no_resize later _ hno]
    rfl
  exact ⟨rfl, rfl, fun _ _ => rfl, hrun, by rw [hrun]⟩

/-- Witness for C9: after `register(7, 20, 30)` on the fresh service,
followed by getter calls and another registration but no resize event, no
callback has been invoked. -/
theorem register_invokes_no_callback_witness :
    (∀ a ∈ ([(⟨.num 900, .num 0, .num 0, .num 1000⟩, .getHeight (.num 1)),
        (⟨.num 900, .num 0, .num 0, .num 1000⟩, .getWidth (.num 2)),
        (⟨.num 800, .num 0, .num 0, .num 700⟩, .register 8 (.num 0) (.num 0))] :
        List (Host × Action)), a.2.isResize = false) ∧
    (run (register 7 (.num 20) (.num 30) (after []))
      [(⟨.num 900, .num 0, .num 0, .num 1000⟩, .getHeight (.num 1)),
        (⟨.num 900, .num 0, .num 0, .num 1000⟩, .getWidth (.num 2)),
        (⟨.num 800, .num 0, .num 0, .num 700⟩, .register 8 (.num 0) (.num 0))]).calls = [] ∧
    (register 7 (.num 20) (.num 30) (after [])).calls = [] :=
  ⟨by decide,
    (register_invokes_no_callback [] 7 (.num 20) (.num 30)
      [(⟨.num 900, .num 0, .num 0, .num 1000⟩, .getHeight (.num 1)),
        (⟨.num 900, .num 0, .num 0, .num 1000⟩, .getWidth (.num 2)),
        (⟨.num 800, .num 0, .num 0, .num 700⟩, .register 8 (.num 0) (.num 0))]
      (by decide)).2.2.2.1,
    (register_invokes_no_callback [] 7 (.num 20) (.num 30) [] (by simp)).1⟩

/-- C10: `getHeight` and `getWidth` are read-only: each returns the service
it was given (handler, floors and trace unchanged), the floors of a reachable
service are 640 and 200 also after a getter call, two calls with the same
offset under the same measurements return the same value, and any number of
getter calls between a registration and a resize event leaves the service
produced by that event, hence the arguments passed to the callback,
unchanged. -/
theorem getters_are_read_only (acts : List (Host × Action)) (s : Service)
    (o : JsVal) (host : Host) (gets : List (Host × Action))
    (hget : ∀ a ∈ gets, a.2.isGetter = true) :
    (getHeight o host s).2 = s ∧
    (getWidth o host s).2 = s ∧
    (getHeight o host (after acts)).2.minHeight = .num 200 ∧
    (getHeight o host (after acts)).2.minWidth = .num 640 ∧
    (getWidth o host (after acts)).2.minHeight = .num 200 ∧
    (getWidth o host (after acts)).2.minWidth = .num 640 ∧
    (getHeight o host (getHeight o host s).2).1 = (getHeight o host s).1 ∧
    (getWidth o host (getWidth o host s).2).1 = (getWidth o host s).1 ∧
    run s gets = s ∧
    (∀ (cb : Nat) (wo ho : JsVal) (hostR : Host),
      run (register cb wo ho s) (gets ++ [(hostR, .resize)]) =
        resize hostR (register cb wo ho s)) := by
  refine ⟨rfl, rfl, after_minHeight acts, after_minWidth acts, after_minHeight acts,
    after_minWidth acts, rfl, rfl, run_of_getters gets s hget, ?_⟩
  intro cb wo ho hostR
  rw [run_append, run_of_getters gets _ hget]
  rfl

/-- Witness for C10: three getter calls between `register(7, 20, 30)` and a
resize with width 1000 and height 900 leave the invocation `(980, 870)`. -/
theorem getters_are_read_only_witness :
    (∀ a ∈ ([(⟨.num 100, .num 0, .num 0, .num 100⟩, .getHeight (.num 1)),
        (⟨.num 300, .num 0, .num 0, .num 400⟩, .getWidth (.num 2)),
        (⟨.num 300, .num 0, .num 0, .num 400⟩, .getWidth (.num 2))] :
        List (Host × Action)), a.2.isGetter = true) ∧
    (run (register 7 (.num 20) (.num 30) factory)
      ([(⟨.num 100, .num 0, .num 0, .num 100⟩, .getHeight (.num 1)),
        (⟨.num 300, .num 0, .num 0, .num 400⟩, .getWidth (.num 2)),
        (⟨.num 300, .num 0, .num 0, .num 400⟩, .getWidth (.num 2))] ++
        [(⟨.num 900, .num 0, .num 0, .num 1000⟩, .resize)])).calls =
      [⟨7, .num 980, .num 870⟩] :=
  ⟨by decide,
    congrArg Service.calls
      ((getters_are_read_only [] factory (.num 0) ⟨.num 900, .num 0, .num 0, .num 1000⟩
        [(⟨.num 100, .num 0, .num 0, .num 100⟩, .getHeight (.num 1)),
          (⟨.num 300, .num 0, .num 0, .num 400⟩, .getWidth (.num 2)),
          (⟨.num 300, .num 0, .num 0, .num 400⟩, .getWidth (.num 2))]
        (by decide)).2.2.2.2.2.2.2.2.2 7 (.num 20) (.num 30)
        ⟨.num 900, .num 0, .num 0, .num 1000⟩)⟩

end ResizeServices
